import Mathlib

/-!
Shallow embedding of `src/publish/domain.py` (the pipeline execution core of
the `publish` repository): the `Context`/`Instance` data model, host
resolution, the Selector Runner `select`, and the Stage Runner `process`.

Modelling conventions:
* Python object mutation becomes explicit value passing; the runners return
  the updated `Context` together with a trace of observable events
  (plugin-behavior construction, calls to `current_host`, plugin
  invocations), so that claims about what was or was not called are
  statable.
* A plugin's `process()` is modelled as a function returning the mutated
  state together with `Option String`: `some msg` means the call raised an
  exception with message `msg` (mutations performed before the raise
  persist, as in Python); `none` means it returned normally.
* Python exceptions escaping the runners (`ValueError` from `current_host`,
  the `assert isinstance` failure) become the `Except` error channel.
* An error object's `parent` attribute (a reference to the Instance it was
  recorded on) is rendered as the index of that Instance in the Context.
-/

namespace Publish

/-- An error record accumulated on an instance: the exception message, the
`parent` back-reference (index of the instance it was tagged with, if any)
and the captured `traceback` string (if any). -/
structure PbError where
  msg : String
  parent : Option Nat := none
  traceback : Option String := none
deriving Repr, DecidableEq, Inhabited

/-- Embedding of `Instance` from `domain.py`: path, configuration mapping and the
append-only error list. Config values are the family labels the stage
runner compares against, so they are modelled as strings. -/
structure Instance where
  path : String
  config : List (String × String)
  errors : List PbError := []
deriving Repr, DecidableEq, Inhabited

/-- Embedding of `instance.config.get('family')`: first value bound to the key
`"family"`, or `none` when the key is absent. -/
def Instance.family (inst : Instance) : Option String :=
  inst.config.lookup "family"

/-- Embedding of `Context` from `domain.py`: an ordered collection of instances. -/
structure Context where
  instances : List Instance
deriving Repr, DecidableEq, Inhabited

/-- The `Context.errors` property: `errors = list()`, then
`errors.extend(instance.errors)` for each instance in order. -/
def Context.errors (c : Context) : List PbError :=
  c.instances.foldl (fun acc inst => acc ++ inst.errors) []

/-- The `Context.has_errors` property: `for error in self.errors: return
True` then `return False` — true exactly when `errors` yields an element. -/
def Context.has_errors (c : Context) : Bool :=
  match c.errors with
  | [] => false
  | _ :: _ => true

/-- Exceptions that escape the runners uncaught. -/
inductive PublishErr where
  /-- The `ValueError("Could not determine host")` raised by `current_host`. -/
  | hostUndetermined
  /-- Failure of `assert isinstance(context, Context)` in `process`. -/
  | assertionError
deriving Repr, DecidableEq

/-- Embedding of `os.path.basename` (posix): the part of the path after the last `/`
(scan the characters, restarting the accumulator at each separator). -/
def basename (p : String) : String :=
  String.mk (p.toList.foldl (fun acc c => if c = '/' then [] else acc ++ [c]) [])

/-- Python's substring test `needle in hay`, on character lists: some
suffix of `hay` starts with `needle`. -/
def containsSub (needle hay : List Char) : Bool :=
  needle.isPrefixOf hay ||
    match hay with
    | [] => false
    | _ :: t => containsSub needle t

/-- Embedding of `current_host()` from `domain.py`: returns `'maya'` when the substring
`'maya'` occurs in the basename of the running interpreter executable
(`sys.executable`, here an explicit argument), otherwise raises
`ValueError("Could not determine host")`. -/
def current_host (executable : String) : Except PublishErr String :=
  if containsSub "maya".toList (basename executable).toList then
    Except.ok "maya"
  else
    Except.error PublishErr.hostUndetermined

/-- Observable events of a runner pass, for claims about what gets called:
`discovery ty` is a call to `publish.plugin.discover(type=ty)`;
`constructed k nm` is `plugin = PluginClass(context)` for the `k`-th
discovered plugin (named `nm`); `hostCall` is a call to `current_host()`;
`invokedSel k nm` is `plugin.process()` on the `k`-th selector plugin;
`invokedStage k nm i` is `plugin.process()` on the `k`-th stage plugin
while iterating the instance at index `i`. -/
inductive Event where
  | discovery (ty : String)
  | constructed (k : Nat) (plugin : String)
  | hostCall
  | invokedSel (k : Nat) (plugin : String)
  | invokedStage (k : Nat) (plugin : String) (i : Nat)
deriving Repr, DecidableEq

/-- A discovered selector plugin: its name, declared host set, and its
behavior. `act c = (c', some msg)` means `process()` left the context as
`c'` and raised an exception with message `msg`; `(c', none)` means it
returned normally. -/
structure SelPlugin where
  name : String
  hosts : List String
  act : Context → Context × Option String

/-- A discovered stage plugin: name, declared host set, declared family
set, and behavior acting on the instance currently iterated. -/
structure StagePlugin where
  name : String
  hosts : List String
  families : List String
  act : Instance → Instance × Option String

/-- The membership test `family in plugin.families` where `family` is
`instance.config.get('family')` (possibly `None`) and the plugin's
declared families are labels: `None` matches no label. -/
def familyMatches (family : Option String) (families : List String) : Bool :=
  families.any (fun f => some f == family)

/-- The `traceback.format_exc()` string captured for an exception with message
`msg`. -/
def formatExc (msg : String) : String :=
  "Traceback (most recent call last): " ++ msg

/-- The loop body of `select`: for each discovered plugin (numbered from
`k`), construct the behavior, skip unless the current host is in its
`hosts`, invoke it, and swallow (log-only) any exception it raises. A
failure of `current_host` itself propagates. -/
def selectLoop (executable : String) (k : Nat) (plugins : List SelPlugin)
    (ctx : Context) : Except PublishErr Context × List Event :=
  match plugins with
  | [] => (Except.ok ctx, [])
  | P :: rest =>
    match current_host executable with
    | Except.error e => (Except.error e, [Event.constructed k P.name, Event.hostCall])
    | Except.ok host =>
      if host ∈ P.hosts then
        let step := P.act ctx
        let r := selectLoop executable (k + 1) rest step.1
        (r.1, Event.constructed k P.name :: Event.hostCall ::
              Event.invokedSel k P.name :: r.2)
      else
        let r := selectLoop executable (k + 1) rest ctx
        (r.1, Event.constructed k P.name :: Event.hostCall :: r.2)

/-- Embedding of `select(context=None)` from `domain.py`: discover the `'selectors'`
plugins, default the context to a fresh empty one when none is passed,
run the selector loop, and return the same context. -/
def select (executable : String) (discover : String → List SelPlugin)
    (ctx? : Option Context) : Except PublishErr Context × List Event :=
  let plugins := discover "selectors"
  let ctx := ctx?.getD (Context.mk [])
  let r := selectLoop executable 0 plugins ctx
  (r.1, Event.discovery "selectors" :: r.2)

/-- The inner plugin loop of `process` for one instance (at index `i`,
with `family` read once from its config before the loop): for each plugin
(numbered from `k`), construct the behavior, skip unless the host check
and then the family check pass, invoke it; if the invocation raises, tag
the exception with `parent = instance` and the captured traceback, append
it to `instance.errors`, and continue with the next plugin. -/
def processInstance (executable : String) (k : Nat)
    (plugins : List StagePlugin) (i : Nat) (family : Option String)
    (inst : Instance) : Except PublishErr Instance × List Event :=
  match plugins with
  | [] => (Except.ok inst, [])
  | P :: rest =>
    match current_host executable with
    | Except.error e => (Except.error e, [Event.constructed k P.name, Event.hostCall])
    | Except.ok host =>
      if host ∈ P.hosts then
        if familyMatches family P.families then
          let step := P.act inst
          let inst2 :=
            match step.2 with
            | none => step.1
            | some msg =>
              { step.1 with
                errors := step.1.errors ++
                  [⟨msg, some i, some (formatExc msg)⟩] }
          let r := processInstance executable (k + 1) rest i family inst2
          (r.1, Event.constructed k P.name :: Event.hostCall ::
                Event.invokedStage k P.name i :: r.2)
        else
          let r := processInstance executable (k + 1) rest i family inst
          (r.1, Event.constructed k P.name :: Event.hostCall :: r.2)
      else
        let r := processInstance executable (k + 1) rest i family inst
        (r.1, Event.constructed k P.name :: Event.hostCall :: r.2)

/-- The outer instance loop of `process`: iterate the instances in context
order (index `i` onward); for each, read `family = config.get('family')`
once and run the plugin loop. -/
def processLoop (executable : String) (plugins : List StagePlugin) (i : Nat)
    (insts : List Instance) : Except PublishErr (List Instance) × List Event :=
  match insts with
  | [] => (Except.ok [], [])
  | inst :: rest =>
    let r1 := processInstance executable 0 plugins i inst.family inst
    match r1.1 with
    | Except.error e => (Except.error e, r1.2)
    | Except.ok inst' =>
      let r2 := processLoop executable plugins (i + 1) rest
      match r2.1 with
      | Except.error e => (Except.error e, r1.2 ++ r2.2)
      | Except.ok rest' => (Except.ok (inst' :: rest'), r1.2 ++ r2.2)

/-- A Python value passed as the `context` argument of `process`: either
an actual `Context` or some other object. -/
inductive PyValue where
  | ctx (c : Context)
  | other (tag : String)
deriving Repr, DecidableEq

/-- Embedding of `process(process, context)` from `domain.py`: assert the argument is a
`Context` (an `AssertionError` propagates immediately), discover the
plugins of the requested stage, run every discovered plugin against every
instance whose host and family match, and return the same context. -/
def process (executable : String) (discover : String → List StagePlugin)
    (stage : String) (v : PyValue) : Except PublishErr Context × List Event :=
  match v with
  | PyValue.other _ => (Except.error PublishErr.assertionError, [])
  | PyValue.ctx c =>
    let plugins := discover stage
    let r := processLoop executable plugins 0 c.instances
    match r.1 with
    | Except.error e => (Except.error e, Event.discovery stage :: r.2)
    | Except.ok insts' => (Except.ok (Context.mk insts'), Event.discovery stage :: r.2)

/-- Modelled from the spec: the derived value `C.errors` is described there
as "the concatenation, in Instance order, of each Instance's `errors`".
This is the spec-side definition, to be compared with `Context.errors`
embedded from the source. -/
def specErrorsConcat : List Instance → List PbError
  | [] => []
  | inst :: rest => inst.errors ++ specErrorsConcat rest

/-- The error record the stage runner appends when an invocation raises
with message `msg` while iterating the instance at index `i`: the
exception, tagged with `parent = instance` and the captured traceback. -/
def raiseRecord (msg : String) (i : Nat) : PbError :=
  ⟨msg, some i, some (formatExc msg)⟩

/-- The state of the iterated instance after a stage plugin invocation and
the runner's exception handling: on normal return the mutated instance; on
a raise, the mutated instance with the tagged error appended. -/
def afterInvoke (P : StagePlugin) (i : Nat) (inst : Instance) : Instance :=
  match (P.act inst).2 with
  | none => (P.act inst).1
  | some msg =>
    { (P.act inst).1 with errors := (P.act inst).1.errors ++ [raiseRecord msg i] }

/-- The behavior-independent data of a stage plugin: name, host set and
family set. Dispatch decisions depend only on these. -/
def pluginStatics (P : StagePlugin) : String × List String × List String :=
  (P.name, P.hosts, P.families)

/- Concrete fixtures used by the witnesses below. -/

/-- A `sys.executable` under which `current_host` resolves to `'maya'`. -/
def exePy : String := "/usr/autodesk/maya/bin/mayapy"

/-- A `sys.executable` under which host resolution fails. -/
def exeOther : String := "/usr/bin/python"

/-- A stage plugin for maya/model whose `process()` always raises. -/
def P1c : StagePlugin :=
  ⟨"P1", ["maya"], ["model"], fun inst => (inst, some "boom")⟩

/-- A stage plugin for maya/model whose `process()` always succeeds. -/
def P2c : StagePlugin :=
  ⟨"P2", ["maya"], ["model"], fun inst => (inst, none)⟩

/-- A stage plugin declared for a different host. -/
def PbadHost : StagePlugin :=
  ⟨"PH", ["houdini"], ["model"], fun inst => (inst, some "never")⟩

/-- A selector plugin for maya whose `process()` always raises. -/
def S1c : SelPlugin :=
  ⟨"S1", ["maya"], fun c => (c, some "sel boom")⟩

/-- A selector plugin declared for a different host. -/
def SbadHost : SelPlugin :=
  ⟨"S0", ["houdini"], fun c => (c, none)⟩

/-- A concrete instance of family `"model"`. -/
def instA : Instance := ⟨"|pSphere1_SEL", [("family", "model")], []⟩

/-- A concrete context holding `instA`. -/
def ctxA : Context := ⟨[instA]⟩

/-! ### Helper lemmas -/

lemma foldl_append_errors (l : List Instance) (acc : List PbError) :
    l.foldl (fun a inst => a ++ inst.errors) acc = acc ++ specErrorsConcat l := by
  induction l generalizing acc with
  | nil => simp [specErrorsConcat]
  | cons inst t ih => simp [specErrorsConcat, List.foldl_cons, ih]

lemma context_errors_eq (c : Context) : c.errors = specErrorsConcat c.instances := by
  unfold Context.errors
  simpa using foldl_append_errors c.instances []

lemma selectLoop_cons_skip (exe h : String) (hh : current_host exe = Except.ok h)
    (P : SelPlugin) (rest : List SelPlugin) (k : Nat) (ctx : Context)
    (hP : h ∉ P.hosts) :
    selectLoop exe k (P :: rest) ctx =
      ((selectLoop exe (k + 1) rest ctx).1,
       Event.constructed k P.name :: Event.hostCall ::
         (selectLoop exe (k + 1) rest ctx).2) := by
  conv_lhs => rw [selectLoop]
  rw [hh]
  simp [hP]

lemma selectLoop_cons_match (exe h : String) (hh : current_host exe = Except.ok h)
    (P : SelPlugin) (rest : List SelPlugin) (k : Nat) (ctx : Context)
    (hP : h ∈ P.hosts) :
    selectLoop exe k (P :: rest) ctx =
      ((selectLoop exe (k + 1) rest (P.act ctx).1).1,
       Event.constructed k P.name :: Event.hostCall :: Event.invokedSel k P.name ::
         (selectLoop exe (k + 1) rest (P.act ctx).1).2) := by
  conv_lhs => rw [selectLoop]
  rw [hh]
  simp [hP]

lemma selectLoop_ok (exe h : String) (hh : current_host exe = Except.ok h) :
    ∀ (plugins : List SelPlugin) (k : Nat) (ctx : Context),
      ∃ c', (selectLoop exe k plugins ctx).1 = Except.ok c' := by
  intro plugins
  induction plugins with
  | nil => intro k ctx; exact ⟨ctx, rfl⟩
  | cons P rest ih =>
    intro k ctx
    by_cases hP : h ∈ P.hosts
    · rw [selectLoop_cons_match exe h hh P rest k ctx hP]
      simpa using ih (k + 1) (P.act ctx).1
    · rw [selectLoop_cons_skip exe h hh P rest k ctx hP]
      simpa using ih (k + 1) ctx

lemma selectLoop_invokedSel_ge (exe : String) :
    ∀ (plugins : List SelPlugin) (k : Nat) (ctx : Context) (m : Nat) (nm : String),
      Event.invokedSel m nm ∈ (selectLoop exe k plugins ctx).2 → k ≤ m := by
  intro plugins
  induction plugins with
  | nil => intro k ctx m nm hmem; simp [selectLoop] at hmem
  | cons P rest ih =>
    intro k ctx m nm hmem
    unfold selectLoop at hmem
    cases hch : current_host exe with
    | error e => rw [hch] at hmem; simp at hmem
    | ok host =>
      rw [hch] at hmem
      by_cases hP : host ∈ P.hosts
      · simp [hP] at hmem
        rcases hmem with ⟨hm, _⟩ | hmem
        · omega
        · exact Nat.le_of_succ_le (ih (k + 1) (P.act ctx).1 m nm hmem)
      · simp [hP] at hmem
        exact Nat.le_of_succ_le (ih (k + 1) ctx m nm hmem)

lemma isPrefixOf_eq_true_iff :
    ∀ (n hay : List Char), n.isPrefixOf hay = true ↔ ∃ post, hay = n ++ post := by
  intro n
  induction n with
  | nil =>
    intro hay
    simp [List.isPrefixOf]
  | cons a as ih =>
    intro hay
    cases hay with
    | nil =>
      simp [List.isPrefixOf]
    | cons b bs =>
      simp only [List.isPrefixOf, Bool.and_eq_true, beq_iff_eq, ih bs]
      constructor
      · rintro ⟨hab, post, hpost⟩
        subst hab
        exact ⟨post, by simp [hpost]⟩
      · rintro ⟨post, hpost⟩
        simp only [List.cons_append] at hpost
        obtain ⟨hb, hbs⟩ := List.cons.inj hpost
        exact ⟨hb.symm, post, hbs⟩

lemma containsSub_eq_true_iff :
    ∀ (n hay : List Char), containsSub n hay = true ↔ ∃ pre post, hay = pre ++ n ++ post := by
  intro n hay
  induction hay with
  | nil =>
    cases n with
    | nil =>
      constructor
      · intro _; exact ⟨[], [], rfl⟩
      · intro _; rfl
    | cons a as =>
      constructor
      · intro hfalse; simp [containsSub, List.isPrefixOf] at hfalse
      · rintro ⟨pre, post, hpre⟩
        exact absurd hpre.symm (by simp)
  | cons b bs ih =>
    rw [containsSub]
    simp only [Bool.or_eq_true, isPrefixOf_eq_true_iff, ih]
    constructor
    · rintro (⟨post, hpost⟩ | ⟨pre, post, hpost⟩)
      · exact ⟨[], post, by simp [hpost]⟩
      · exact ⟨b :: pre, post, by simp [hpost]⟩
    · rintro ⟨pre, post, hpost⟩
      cases pre with
      | nil => exact Or.inl ⟨post, by simpa using hpost⟩
      | cons p ps =>
        simp only [List.cons_append, List.append_assoc] at hpost
        obtain ⟨hb, hbs⟩ := List.cons.inj hpost
        exact Or.inr ⟨ps, post, by simp [hbs]⟩

lemma processInstance_cons_hostSkip (exe h : String)
    (hh : current_host exe = Except.ok h) (P : StagePlugin)
    (rest : List StagePlugin) (k i : Nat) (fam : Option String) (inst : Instance)
    (hP : h ∉ P.hosts) :
    processInstance exe k (P :: rest) i fam inst =
      ((processInstance exe (k + 1) rest i fam inst).1,
       Event.constructed k P.name :: Event.hostCall ::
         (processInstance exe (k + 1) rest i fam inst).2) := by
  conv_lhs => rw [processInstance]
  rw [hh]
  simp [hP]

lemma processInstance_cons_famSkip (exe h : String)
    (hh : current_host exe = Except.ok h) (P : StagePlugin)
    (rest : List StagePlugin) (k i : Nat) (fam : Option String) (inst : Instance)
    (hfm : familyMatches fam P.families = false) :
    processInstance exe k (P :: rest) i fam inst =
      ((processInstance exe (k + 1) rest i fam inst).1,
       Event.constructed k P.name :: Event.hostCall ::
         (processInstance exe (k + 1) rest i fam inst).2) := by
  conv_lhs => rw [processInstance]
  rw [hh]
  by_cases hP : h ∈ P.hosts
  · simp [hP, hfm]
  · simp [hP]

lemma processInstance_cons_match (exe h : String)
    (hh : current_host exe = Except.ok h) (P : StagePlugin)
    (rest : List StagePlugin) (k i : Nat) (fam : Option String) (inst : Instance)
    (hP : h ∈ P.hosts) (hfm : familyMatches fam P.families = true) :
    processInstance exe k (P :: rest) i fam inst =
      ((processInstance exe (k + 1) rest i fam (afterInvoke P i inst)).1,
       Event.constructed k P.name :: Event.hostCall :: Event.invokedStage k P.name i ::
         (processInstance exe (k + 1) rest i fam (afterInvoke P i inst)).2) := by
  conv_lhs => rw [processInstance]
  rw [hh]
  rcases hact : P.act inst with ⟨inst2, exc⟩
  cases exc with
  | none => simp [hP, hfm, afterInvoke, hact]
  | some msg => simp [hP, hfm, afterInvoke, hact, raiseRecord]

lemma processInstance_ok (exe h : String) (hh : current_host exe = Except.ok h) :
    ∀ (ps : List StagePlugin) (k i : Nat) (fam : Option String) (inst : Instance),
      ∃ v, (processInstance exe k ps i fam inst).1 = Except.ok v := by
  intro ps
  induction ps with
  | nil => intro k i fam inst; exact ⟨inst, rfl⟩
  | cons P rest ih =>
    intro k i fam inst
    by_cases hP : h ∈ P.hosts
    · by_cases hfm : familyMatches fam P.families = true
      · rw [processInstance_cons_match exe h hh P rest k i fam inst hP hfm]
        simpa using ih (k + 1) i fam (afterInvoke P i inst)
      · have hfm' : familyMatches fam P.families = false := by
          simpa using hfm
        rw [processInstance_cons_famSkip exe h hh P rest k i fam inst hfm']
        simpa using ih (k + 1) i fam inst
    · rw [processInstance_cons_hostSkip exe h hh P rest k i fam inst hP]
      simpa using ih (k + 1) i fam inst

lemma processInstance_invokedStage_ge (exe : String) :
    ∀ (ps : List StagePlugin) (k i : Nat) (fam : Option String) (inst : Instance)
      (m : Nat) (nm : String) (i' : Nat),
      Event.invokedStage m nm i' ∈ (processInstance exe k ps i fam inst).2 → k ≤ m := by
  intro ps
  induction ps with
  | nil => intro k i fam inst m nm i' hmem; simp [processInstance] at hmem
  | cons P rest ih =>
    intro k i fam inst m nm i' hmem
    rw [processInstance] at hmem
    cases hch : current_host exe with
    | error e => rw [hch] at hmem; simp at hmem
    | ok host =>
      rw [hch] at hmem
      by_cases hP : host ∈ P.hosts
      · by_cases hfm : familyMatches fam P.families = true
        · simp [hP, hfm] at hmem
          rcases hmem with ⟨hm, _, _⟩ | hmem
          · omega
          · exact Nat.le_of_succ_le (ih (k + 1) i fam _ m nm i' hmem)
        · simp [hP, hfm] at hmem
          exact Nat.le_of_succ_le (ih (k + 1) i fam inst m nm i' hmem)
      · simp [hP] at hmem
        exact Nat.le_of_succ_le (ih (k + 1) i fam inst m nm i' hmem)

lemma invokedStage_k_not_in_tail (exe : String) (rest : List StagePlugin)
    (k i : Nat) (fam : Option String) (inst : Instance) (nm : String) (i' : Nat) :
    Event.invokedStage k nm i' ∉ (processInstance exe (k + 1) rest i fam inst).2 :=
  fun hmem =>
    absurd (processInstance_invokedStage_ge exe rest (k + 1) i fam inst k nm i' hmem)
      (by omega)

lemma invokedSel_k_not_in_tail (exe : String) (rest : List SelPlugin)
    (k : Nat) (ctx : Context) (nm : String) :
    Event.invokedSel k nm ∉ (selectLoop exe (k + 1) rest ctx).2 :=
  fun hmem =>
    absurd (selectLoop_invokedSel_ge exe rest (k + 1) ctx k nm hmem) (by omega)

lemma familyMatches_none (fams : List String) : familyMatches none fams = false := by
  simp [familyMatches]

lemma processInstance_famNone (exe h : String)
    (hh : current_host exe = Except.ok h) :
    ∀ (ps : List StagePlugin) (k i : Nat) (inst : Instance),
      (processInstance exe k ps i none inst).1 = Except.ok inst ∧
      ∀ (m : Nat) (nm : String) (i' : Nat),
        Event.invokedStage m nm i' ∉ (processInstance exe k ps i none inst).2 := by
  intro ps
  induction ps with
  | nil =>
    intro k i inst
    exact ⟨rfl, by intro m nm i'; simp [processInstance]⟩
  | cons P rest ih =>
    intro k i inst
    rw [processInstance_cons_famSkip exe h hh P rest k i none inst
      (familyMatches_none P.families)]
    obtain ⟨h1, h2⟩ := ih (k + 1) i inst
    refine ⟨h1, ?_⟩
    intro m nm i'
    simp [List.mem_cons, h2 m nm i']

lemma processLoop_nil_plugins (exe : String) :
    ∀ (insts : List Instance) (i : Nat),
      processLoop exe [] i insts = (Except.ok insts, []) := by
  intro insts
  induction insts with
  | nil => intro i; rfl
  | cons inst rest ih =>
    intro i
    rw [processLoop]
    simp [processInstance, ih (i + 1)]

lemma processLoop_cons_ok (exe : String) (ps : List StagePlugin) (i : Nat)
    (inst : Instance) (rest : List Instance) (v : Instance) (out : List Instance)
    (hv : (processInstance exe 0 ps i inst.family inst).1 = Except.ok v)
    (hrest : (processLoop exe ps (i + 1) rest).1 = Except.ok out) :
    processLoop exe ps i (inst :: rest) =
      (Except.ok (v :: out),
       (processInstance exe 0 ps i inst.family inst).2 ++
         (processLoop exe ps (i + 1) rest).2) := by
  conv_lhs => rw [processLoop]
  simp [hv, hrest]

lemma processLoop_ok (exe h : String) (hh : current_host exe = Except.ok h) :
    ∀ (insts : List Instance) (ps : List StagePlugin) (i : Nat),
      ∃ out, (processLoop exe ps i insts).1 = Except.ok out := by
  intro insts
  induction insts with
  | nil => intro ps i; exact ⟨[], rfl⟩
  | cons inst rest ih =>
    intro ps i
    obtain ⟨v, hv⟩ := processInstance_ok exe h hh ps 0 i inst.family inst
    obtain ⟨out, hout⟩ := ih ps (i + 1)
    rw [processLoop_cons_ok exe ps i inst rest v out hv hout]
    exact ⟨v :: out, rfl⟩

lemma processLoop_elementwise (exe h : String)
    (hh : current_host exe = Except.ok h) :
    ∀ (insts : List Instance) (ps : List StagePlugin) (i : Nat) (out : List Instance),
      (processLoop exe ps i insts).1 = Except.ok out →
      out.length = insts.length ∧
      ∀ (j : Nat) (inst0 : Instance), insts.get? j = some inst0 →
        ∃ inst1,
          (processInstance exe 0 ps (i + j) inst0.family inst0).1 = Except.ok inst1 ∧
          out.get? j = some inst1 := by
  intro insts
  induction insts with
  | nil =>
    intro ps i out hout
    simp [processLoop] at hout
    subst hout
    exact ⟨rfl, by intro j inst0 hj; simp at hj⟩
  | cons inst rest ih =>
    intro ps i out hout
    obtain ⟨v, hv⟩ := processInstance_ok exe h hh ps 0 i inst.family inst
    obtain ⟨out', hout'⟩ := processLoop_ok exe h hh rest ps (i + 1)
    rw [processLoop_cons_ok exe ps i inst rest v out' hv hout'] at hout
    simp only [Except.ok.injEq] at hout
    subst hout
    obtain ⟨hlen, helem⟩ := ih ps (i + 1) out' hout'
    constructor
    · simp [hlen]
    · intro j inst0 hj
      cases j with
      | zero =>
        simp only [List.get?] at hj
        injection hj with hj0
        subst hj0
        exact ⟨v, by simpa using hv, by simp⟩
      | succ j' =>
        simp only [List.get?] at hj
        obtain ⟨inst1, h1, h2⟩ := helem j' inst0 hj
        refine ⟨inst1, ?_, by simpa using h2⟩
        have harith : i + (j' + 1) = i + 1 + j' := by omega
        rw [harith]
        exact h1

lemma processInstance_events_statics (exe h : String)
    (hh : current_host exe = Except.ok h) :
    ∀ (ps ps' : List StagePlugin), ps.map pluginStatics = ps'.map pluginStatics →
      ∀ (k i : Nat) (fam : Option String) (inst inst' : Instance),
        (processInstance exe k ps i fam inst).2 =
          (processInstance exe k ps' i fam inst').2 := by
  intro ps
  induction ps with
  | nil =>
    intro ps' hmap k i fam inst inst'
    have hnil : ps' = [] := by simpa using hmap.symm
    subst hnil
    rfl
  | cons P t ih =>
    intro ps' hmap k i fam inst inst'
    cases ps' with
    | nil => simp at hmap
    | cons P' t' =>
      simp only [List.map_cons, List.cons.injEq] at hmap
      obtain ⟨hstat, ht⟩ := hmap
      have hn : P.name = P'.name := congrArg (fun x => x.1) hstat
      have hhosts : P.hosts = P'.hosts := congrArg (fun x => x.2.1) hstat
      have hfams : P.families = P'.families := congrArg (fun x => x.2.2) hstat
      by_cases hP : h ∈ P.hosts
      · by_cases hfm : familyMatches fam P.families = true
        · rw [processInstance_cons_match exe h hh P t k i fam inst hP hfm,
            processInstance_cons_match exe h hh P' t' k i fam inst'
              (hhosts ▸ hP) (hfams ▸ hfm)]
          simp [hn, ih t' ht (k + 1) i fam (afterInvoke P i inst) (afterInvoke P' i inst')]
        · have hfm' : familyMatches fam P.families = false := by simpa using hfm
          rw [processInstance_cons_famSkip exe h hh P t k i fam inst hfm',
            processInstance_cons_famSkip exe h hh P' t' k i fam inst' (hfams ▸ hfm')]
          simp [hn, ih t' ht (k + 1) i fam inst inst']
      · rw [processInstance_cons_hostSkip exe h hh P t k i fam inst hP,
          processInstance_cons_hostSkip exe h hh P' t' k i fam inst' (hhosts ▸ hP)]
        simp [hn, ih t' ht (k + 1) i fam inst inst']

lemma processLoop_events_statics (exe h : String)
    (hh : current_host exe = Except.ok h) :
    ∀ (insts : List Instance) (ps ps' : List StagePlugin),
      ps.map pluginStatics = ps'.map pluginStatics →
      ∀ i : Nat, (processLoop exe ps i insts).2 = (processLoop exe ps' i insts).2 := by
  intro insts
  induction insts with
  | nil => intro ps ps' hmap i; rfl
  | cons inst rest ih =>
    intro ps ps' hmap i
    obtain ⟨v, hv⟩ := processInstance_ok exe h hh ps 0 i inst.family inst
    obtain ⟨v', hv'⟩ := processInstance_ok exe h hh ps' 0 i inst.family inst
    obtain ⟨out, hout⟩ := processLoop_ok exe h hh rest ps (i + 1)
    obtain ⟨out', hout'⟩ := processLoop_ok exe h hh rest ps' (i + 1)
    rw [processLoop_cons_ok exe ps i inst rest v out hv hout,
      processLoop_cons_ok exe ps' i inst rest v' out' hv' hout']
    simp [processInstance_events_statics exe h hh ps ps' hmap 0 i inst.family inst inst,
      ih ps ps' hmap (i + 1)]

/-! ### Claim theorems -/

/-- Claim C1: for every Context `C`, the derived property `C.errors`
equals the concatenation, in the Context's insertion order of Instances,
of each Instance's `errors` list, and `C.has_errors` is true if and only
if that concatenation is non-empty. -/
theorem c1_context_errors :
    ∀ c : Context,
      c.errors = specErrorsConcat c.instances ∧
      (c.has_errors = true ↔ specErrorsConcat c.instances ≠ []) := by
  intro c
  have h1 := context_errors_eq c
  refine ⟨h1, ?_⟩
  unfold Context.has_errors
  rw [h1]
  cases hsp : specErrorsConcat c.instances with
  | nil => simp
  | cons e t => simp

/-- Claim C2: when an invoked stage plugin raises, exactly one error
record is appended to the errors of the instance being iterated at that
moment, and the loop continues (nothing is raised further): the first
conjunct is the step equation showing the instance carried forward is the
plugin's result with exactly `raiseRecord msg i` appended. The second
conjunct makes the record's content explicit: `parent` is the iterated
instance (its index `i`) and a captured trace is attached. The third
conjunct shows the error lands on no other instance: each output instance
of the stage loop is produced solely from the matching input instance by
its own plugin loop. -/
theorem c2_raise_appends_one_error (exe h : String)
    (hh : current_host exe = Except.ok h) :
    (∀ (P : StagePlugin) (rest : List StagePlugin) (k i : Nat)
        (fam : Option String) (inst inst2 : Instance) (msg : String),
       h ∈ P.hosts → familyMatches fam P.families = true →
       P.act inst = (inst2, some msg) →
       processInstance exe k (P :: rest) i fam inst =
         ((processInstance exe (k + 1) rest i fam
             { inst2 with errors := inst2.errors ++ [raiseRecord msg i] }).1,
          Event.constructed k P.name :: Event.hostCall ::
            Event.invokedStage k P.name i ::
            (processInstance exe (k + 1) rest i fam
              { inst2 with errors := inst2.errors ++ [raiseRecord msg i] }).2)) ∧
    (∀ (msg : String) (i : Nat),
       (raiseRecord msg i).parent = some i ∧
       (raiseRecord msg i).traceback = some (formatExc msg)) ∧
    (∀ (insts : List Instance) (ps : List StagePlugin) (i : Nat)
        (out : List Instance),
       (processLoop exe ps i insts).1 = Except.ok out →
       out.length = insts.length ∧
       ∀ (j : Nat) (inst0 : Instance), insts.get? j = some inst0 →
         ∃ inst1,
           (processInstance exe 0 ps (i + j) inst0.family inst0).1 =
             Except.ok inst1 ∧
           out.get? j = some inst1) := by
  refine ⟨?_, ?_, processLoop_elementwise exe h hh⟩
  · intro P rest k i fam inst inst2 msg hP hfm hact
    rw [processInstance_cons_match exe h hh P rest k i fam inst hP hfm]
    have hai : afterInvoke P i inst =
        { inst2 with errors := inst2.errors ++ [raiseRecord msg i] } := by
      simp [afterInvoke, hact]
    rw [hai]
  · intro msg i
    exact ⟨rfl, rfl⟩

/-- Claim C2 witness: a concrete raising plugin on a matching instance;
exactly the tagged record is appended and the loop result is `ok`. -/
theorem c2_witness :
    current_host exePy = Except.ok "maya" ∧
    "maya" ∈ P1c.hosts ∧
    familyMatches (some "model") P1c.families = true ∧
    P1c.act instA = (instA, some "boom") ∧
    processInstance exePy 0 [P1c] 0 (some "model") instA =
      (Except.ok { instA with errors := [raiseRecord "boom" 0] },
       [Event.constructed 0 "P1", Event.hostCall, Event.invokedStage 0 "P1" 0]) := by
  refine ⟨rfl, by simp [P1c], rfl, rfl, ?_⟩
  have hstep := (c2_raise_appends_one_error exePy "maya" rfl).1 P1c [] 0 0
    (some "model") instA instA "boom" (by simp [P1c]) rfl rfl
  rw [hstep]
  rfl

/-- Claim C3: stage processing is per-(instance, plugin) isolated. First
conjunct: the full event trace of the stage loop depends only on the
plugins' names, host sets and family sets — not on what any `process()`
invocation does — so one plugin raising never changes which later
(instance, plugin) invocations happen. Second conjunct: `process` never
propagates a plugin-raised error to its caller (it returns `ok` for every
context and discovery outcome once the host resolves). Third conjunct:
the `[P1, P2]` scenario — both match, P1 raises, P2 succeeds — both are
invoked, in order, and exactly one error is recorded, on the iterated
instance. -/
theorem c3_failure_isolation (exe h : String)
    (hh : current_host exe = Except.ok h) :
    (∀ (ps ps' : List StagePlugin), ps.map pluginStatics = ps'.map pluginStatics →
       ∀ (insts : List Instance) (i : Nat),
         (processLoop exe ps i insts).2 = (processLoop exe ps' i insts).2) ∧
    (∀ (discover : String → List StagePlugin) (stage : String) (c : Context),
       ∃ c' evs, process exe discover stage (PyValue.ctx c) = (Except.ok c', evs)) ∧
    (∀ (P1 P2 : StagePlugin) (fam : Option String) (inst : Instance) (msg : String),
       h ∈ P1.hosts → familyMatches fam P1.families = true →
       h ∈ P2.hosts → familyMatches fam P2.families = true →
       P1.act inst = (inst, some msg) →
       (∀ x, (P2.act x).1.errors = x.errors ∧ (P2.act x).2 = none) →
       processInstance exe 0 [P1, P2] 0 fam inst =
         (Except.ok ((P2.act { inst with errors := inst.errors ++ [raiseRecord msg 0] }).1),
          [Event.constructed 0 P1.name, Event.hostCall,
           Event.invokedStage 0 P1.name 0, Event.constructed 1 P2.name,
           Event.hostCall, Event.invokedStage 1 P2.name 0]) ∧
       ((P2.act { inst with errors := inst.errors ++ [raiseRecord msg 0] }).1).errors =
         inst.errors ++ [raiseRecord msg 0]) := by
  refine ⟨fun ps ps' hmap insts i => processLoop_events_statics exe h hh insts ps ps' hmap i,
    ?_, ?_⟩
  · intro discover stage c
    obtain ⟨out, hout⟩ := processLoop_ok exe h hh c.instances (discover stage) 0
    exact ⟨Context.mk out, Event.discovery stage ::
      (processLoop exe (discover stage) 0 c.instances).2, by simp [process, hout]⟩
  · intro P1 P2 fam inst msg hP1 hfm1 hP2 hfm2 hact1 hP2act
    rw [processInstance_cons_match exe h hh P1 [P2] 0 0 fam inst hP1 hfm1]
    have h1 : afterInvoke P1 0 inst =
        { inst with errors := inst.errors ++ [raiseRecord msg 0] } := by
      simp [afterInvoke, hact1]
    rw [h1]
    rw [processInstance_cons_match exe h hh P2 [] 1 0 fam
      { inst with errors := inst.errors ++ [raiseRecord msg 0] } hP2 hfm2]
    have h2 : afterInvoke P2 0 { inst with errors := inst.errors ++ [raiseRecord msg 0] } =
        (P2.act { inst with errors := inst.errors ++ [raiseRecord msg 0] }).1 := by
      have hnone := (hP2act { inst with errors := inst.errors ++ [raiseRecord msg 0] }).2
      simp [afterInvoke, hnone]
    rw [h2]
    refine ⟨rfl, ?_⟩
    simpa using (hP2act { inst with errors := inst.errors ++ [raiseRecord msg 0] }).1

/-- Claim C3 witness: concrete `[P1, P2]`, both matching maya/model, P1
always raises, P2 succeeds: both invoked, one error recorded. -/
theorem c3_witness :
    current_host exePy = Except.ok "maya" ∧
    P1c.act instA = (instA, some "boom") ∧
    processInstance exePy 0 [P1c, P2c] 0 (some "model") instA =
      (Except.ok { instA with errors := [raiseRecord "boom" 0] },
       [Event.constructed 0 "P1", Event.hostCall, Event.invokedStage 0 "P1" 0,
        Event.constructed 1 "P2", Event.hostCall, Event.invokedStage 1 "P2" 0]) := by
  refine ⟨rfl, rfl, ?_⟩
  have hmain := (c3_failure_isolation exePy "maya" rfl).2.2 P1c P2c (some "model")
    instA "boom" (by simp [P1c]) rfl (by simp [P2c]) rfl rfl
    (fun x => ⟨rfl, rfl⟩)
  exact hmain.1

/-- Claim C4: in `select`, a failure raised during a selector plugin's
invocation is caught and does not abort the loop — the loop continues on
the very same context with the subsequent plugins (first conjunct); the
failure is not surfaced in the return value (`select` returns `ok` for
every discovered plugin list once the host resolves, second conjunct);
and with a raising selector the same context that was passed in is
returned, the failure recorded on no instance (third conjunct). -/
theorem c4_selector_failure_isolated (exe h : String)
    (hh : current_host exe = Except.ok h) :
    (∀ (P : SelPlugin) (rest : List SelPlugin) (k : Nat) (ctx : Context) (msg : String),
       h ∈ P.hosts → P.act ctx = (ctx, some msg) →
       selectLoop exe k (P :: rest) ctx =
         ((selectLoop exe (k + 1) rest ctx).1,
          Event.constructed k P.name :: Event.hostCall :: Event.invokedSel k P.name ::
            (selectLoop exe (k + 1) rest ctx).2)) ∧
    (∀ (discover : String → List SelPlugin) (ctx? : Option Context),
       ∃ c' evs, select exe discover ctx? = (Except.ok c', evs)) ∧
    (∀ (P : SelPlugin) (ctx : Context) (msg : String),
       h ∈ P.hosts → P.act ctx = (ctx, some msg) →
       select exe (fun _ => [P]) (some ctx) =
         (Except.ok ctx,
          [Event.discovery "selectors", Event.constructed 0 P.name, Event.hostCall,
           Event.invokedSel 0 P.name])) := by
  refine ⟨?_, ?_, ?_⟩
  · intro P rest k ctx msg hP hact
    rw [selectLoop_cons_match exe h hh P rest k ctx hP, hact]
  · intro discover ctx?
    obtain ⟨c', hc⟩ :=
      selectLoop_ok exe h hh (discover "selectors") 0 (ctx?.getD (Context.mk []))
    exact ⟨c',
      Event.discovery "selectors" ::
        (selectLoop exe 0 (discover "selectors") (ctx?.getD (Context.mk []))).2,
      by simp [select, hc]⟩
  · intro P ctx msg hP hact
    simp only [select, Option.getD_some]
    rw [selectLoop_cons_match exe h hh P [] 0 ctx hP, hact]
    simp [selectLoop]

/-- Claim C4 witness: a concrete raising selector plugin for the resolved
host; `select` swallows the failure and returns the passed-in context. -/
theorem c4_witness :
    current_host exePy = Except.ok "maya" ∧
    "maya" ∈ S1c.hosts ∧
    S1c.act ctxA = (ctxA, some "sel boom") ∧
    select exePy (fun _ => [S1c]) (some ctxA) =
      (Except.ok ctxA,
       [Event.discovery "selectors", Event.constructed 0 "S1", Event.hostCall,
        Event.invokedSel 0 "S1"]) := by
  refine ⟨rfl, by simp [S1c], rfl, ?_⟩
  exact (c4_selector_failure_isolated exePy "maya" rfl).2.2 S1c ctxA "sel boom"
    (by simp [S1c]) rfl

/-- Claim C5: a stage plugin is never invoked when the resolved host is
not in its hosts set (first conjunct: the loop skips it, its invocation
event never occurs) nor when the instance's family is not in its families
set — whatever the host check would say (second conjunct); reading a
config without a `'family'` key yields the sentinel `none` (third
conjunct), which matches no plugin's family set, so such an instance gets
no invocation at all and passes through untouched (fourth conjunct). -/
theorem c5_host_family_filtering (exe h : String)
    (hh : current_host exe = Except.ok h) :
    (∀ (P : StagePlugin) (rest : List StagePlugin) (k i : Nat)
        (fam : Option String) (inst : Instance),
       h ∉ P.hosts →
       processInstance exe k (P :: rest) i fam inst =
         ((processInstance exe (k + 1) rest i fam inst).1,
          Event.constructed k P.name :: Event.hostCall ::
            (processInstance exe (k + 1) rest i fam inst).2) ∧
       Event.invokedStage k P.name i ∉ (processInstance exe k (P :: rest) i fam inst).2) ∧
    (∀ (P : StagePlugin) (rest : List StagePlugin) (k i : Nat)
        (fam : Option String) (inst : Instance),
       familyMatches fam P.families = false →
       processInstance exe k (P :: rest) i fam inst =
         ((processInstance exe (k + 1) rest i fam inst).1,
          Event.constructed k P.name :: Event.hostCall ::
            (processInstance exe (k + 1) rest i fam inst).2) ∧
       Event.invokedStage k P.name i ∉ (processInstance exe k (P :: rest) i fam inst).2) ∧
    (∀ inst : Instance, inst.config.lookup "family" = none → inst.family = none) ∧
    (∀ (ps : List StagePlugin) (k i : Nat) (inst : Instance),
       (processInstance exe k ps i none inst).1 = Except.ok inst ∧
       ∀ (m : Nat) (nm : String) (i' : Nat),
         Event.invokedStage m nm i' ∉ (processInstance exe k ps i none inst).2) := by
  refine ⟨?_, ?_, ?_, processInstance_famNone exe h hh⟩
  · intro P rest k i fam inst hP
    have heq := processInstance_cons_hostSkip exe h hh P rest k i fam inst hP
    refine ⟨heq, ?_⟩
    rw [heq]
    intro hmem
    simp only [List.mem_cons] at hmem
    rcases hmem with h1 | h1 | h1
    · simp at h1
    · simp at h1
    · exact invokedStage_k_not_in_tail exe rest k i fam inst P.name i h1
  · intro P rest k i fam inst hfm
    have heq := processInstance_cons_famSkip exe h hh P rest k i fam inst hfm
    refine ⟨heq, ?_⟩
    rw [heq]
    intro hmem
    simp only [List.mem_cons] at hmem
    rcases hmem with h1 | h1 | h1
    · simp at h1
    · simp at h1
    · exact invokedStage_k_not_in_tail exe rest k i fam inst P.name i h1
  · intro inst hl
    simpa [Instance.family] using hl

/-- Claim C5 witness: a plugin declared for host `houdini` under a maya
interpreter is skipped — constructed, host checked, never invoked, and the
instance passes through untouched. -/
theorem c5_witness :
    current_host exePy = Except.ok "maya" ∧
    "maya" ∉ PbadHost.hosts ∧
    processInstance exePy 0 [PbadHost] 0 (some "model") instA =
      (Except.ok instA, [Event.constructed 0 "PH", Event.hostCall]) := by
  refine ⟨rfl, by simp [PbadHost], ?_⟩
  have hstep := ((c5_host_family_filtering exePy "maya" rfl).1 PbadHost [] 0 0
    (some "model") instA (by simp [PbadHost])).1
  rw [hstep]
  rfl

/-- Claim C6 counterexample: the claim says a skipped plugin has no
behavior constructed for it; but in `select` the behavior is constructed
before the host check — here a selector plugin whose hosts do not contain
the resolved host still gets a `constructed` event. -/
theorem c6_counterexample :
    current_host exePy = Except.ok "maya" ∧
    "maya" ∉ SbadHost.hosts ∧
    Event.constructed 0 "S0" ∈ (select exePy (fun _ => [SbadHost]) none).2 := by
  refine ⟨rfl, by simp [SbadHost], ?_⟩
  decide

/-- Claim C6 as amended: in both runners the plugin behavior is
constructed for every discovered plugin considered — in `select` once per
plugin and in `process` once per (instance, plugin) iteration — before
the host/family checks, not after them; invocation, however, happens only
once the checks succeed, so a plugin skipped by the checks is constructed
but never invoked. -/
theorem c6_constructed_before_checks (exe h : String)
    (hh : current_host exe = Except.ok h) :
    (∀ (P : SelPlugin) (rest : List SelPlugin) (k : Nat) (ctx : Context),
       h ∉ P.hosts →
       Event.constructed k P.name ∈ (selectLoop exe k (P :: rest) ctx).2 ∧
       Event.invokedSel k P.name ∉ (selectLoop exe k (P :: rest) ctx).2) ∧
    (∀ (P : SelPlugin) (rest : List SelPlugin) (k : Nat) (ctx : Context),
       h ∈ P.hosts →
       (selectLoop exe k (P :: rest) ctx).2 =
         Event.constructed k P.name :: Event.hostCall :: Event.invokedSel k P.name ::
           (selectLoop exe (k + 1) rest (P.act ctx).1).2) ∧
    (∀ (P : StagePlugin) (rest : List StagePlugin) (k i : Nat)
        (fam : Option String) (inst : Instance),
       h ∉ P.hosts →
       Event.constructed k P.name ∈ (processInstance exe k (P :: rest) i fam inst).2 ∧
       Event.invokedStage k P.name i ∉ (processInstance exe k (P :: rest) i fam inst).2) ∧
    (∀ (P : StagePlugin) (rest : List StagePlugin) (k i : Nat)
        (fam : Option String) (inst : Instance),
       familyMatches fam P.families = false →
       Event.constructed k P.name ∈ (processInstance exe k (P :: rest) i fam inst).2 ∧
       Event.invokedStage k P.name i ∉ (processInstance exe k (P :: rest) i fam inst).2) ∧
    (∀ (P : StagePlugin) (rest : List StagePlugin) (k i : Nat)
        (fam : Option String) (inst : Instance),
       h ∈ P.hosts → familyMatches fam P.families = true →
       (processInstance exe k (P :: rest) i fam inst).2 =
         Event.constructed k P.name :: Event.hostCall ::
           Event.invokedStage k P.name i ::
           (processInstance exe (k + 1) rest i fam (afterInvoke P i inst)).2) := by
  refine ⟨?_, ?_, ?_, ?_, ?_⟩
  · intro P rest k ctx hP
    rw [selectLoop_cons_skip exe h hh P rest k ctx hP]
    constructor
    · simp
    · intro hmem
      simp only [List.mem_cons] at hmem
      rcases hmem with h1 | h1 | h1
      · simp at h1
      · simp at h1
      · exact invokedSel_k_not_in_tail exe rest k ctx P.name h1
  · intro P rest k ctx hP
    rw [selectLoop_cons_match exe h hh P rest k ctx hP]
  · intro P rest k i fam inst hP
    rw [processInstance_cons_hostSkip exe h hh P rest k i fam inst hP]
    constructor
    · simp
    · intro hmem
      simp only [List.mem_cons] at hmem
      rcases hmem with h1 | h1 | h1
      · simp at h1
      · simp at h1
      · exact invokedStage_k_not_in_tail exe rest k i fam inst P.name i h1
  · intro P rest k i fam inst hfm
    rw [processInstance_cons_famSkip exe h hh P rest k i fam inst hfm]
    constructor
    · simp
    · intro hmem
      simp only [List.mem_cons] at hmem
      rcases hmem with h1 | h1 | h1
      · simp at h1
      · simp at h1
      · exact invokedStage_k_not_in_tail exe rest k i fam inst P.name i h1
  · intro P rest k i fam inst hP hfm
    rw [processInstance_cons_match exe h hh P rest k i fam inst hP hfm]

/-- Claim C6 (amended) witness: concrete host-mismatched stage plugin:
constructed but never invoked. -/
theorem c6_witness :
    current_host exePy = Except.ok "maya" ∧
    "maya" ∉ PbadHost.hosts ∧
    Event.constructed 0 "PH" ∈ (processInstance exePy 0 [PbadHost] 0 (some "model") instA).2 ∧
    Event.invokedStage 0 "PH" 0 ∉ (processInstance exePy 0 [PbadHost] 0 (some "model") instA).2 := by
  refine ⟨rfl, by simp [PbadHost], ?_, ?_⟩
  · exact ((c6_constructed_before_checks exePy "maya" rfl).2.2.1 PbadHost [] 0 0
      (some "model") instA (by simp [PbadHost])).1
  · exact ((c6_constructed_before_checks exePy "maya" rfl).2.2.1 PbadHost [] 0 0
      (some "model") instA (by simp [PbadHost])).2

/-- Claim C7: processing a stage name for which discovery returns zero
plugins is a no-op pass: the very same context is returned (so no
instance's `config` or `errors` is mutated) and the trace records only the
discovery call — no plugin construction, no host call, no invocation. -/
theorem c7_no_plugins_noop :
    ∀ (exe stage : String) (c : Context) (discover : String → List StagePlugin),
      discover stage = [] →
      process exe discover stage (PyValue.ctx c) =
        (Except.ok c, [Event.discovery stage]) := by
  intro exe stage c discover hdisc
  simp [process, hdisc, processLoop_nil_plugins]

/-- Claim C7 witness: a discovery function with no plugins for
`"validators"`, on a context with one instance. -/
theorem c7_witness :
    (fun _ : String => ([] : List StagePlugin)) "validators" = [] ∧
    process exePy (fun _ => []) "validators" (PyValue.ctx ctxA) =
      (Except.ok ctxA, [Event.discovery "validators"]) :=
  ⟨rfl, c7_no_plugins_noop exePy "validators" ctxA (fun _ => []) rfl⟩

/-- Claim C8: `current_host` returns `'maya'` exactly when the basename of
the interpreter executable contains the substring `'maya'`, and otherwise
raises the host-undetermined error instead of returning a value. -/
theorem c8_current_host :
    ∀ exe : String,
      (current_host exe = Except.ok "maya" ↔
        ∃ pre post, (basename exe).toList = pre ++ "maya".toList ++ post) ∧
      (current_host exe = Except.error PublishErr.hostUndetermined ↔
        ¬ ∃ pre post, (basename exe).toList = pre ++ "maya".toList ++ post) := by
  intro exe
  unfold current_host
  by_cases hc : containsSub "maya".toList (basename exe).toList = true
  · have hex := (containsSub_eq_true_iff "maya".toList (basename exe).toList).1 hc
    rw [if_pos hc]
    exact ⟨iff_of_true rfl hex, iff_of_false (by simp) (not_not_intro hex)⟩
  · have hnex : ¬ ∃ pre post, (basename exe).toList = pre ++ "maya".toList ++ post :=
      fun hex => hc ((containsSub_eq_true_iff "maya".toList (basename exe).toList).2 hex)
    rw [if_neg hc]
    exact ⟨iff_of_false (by simp) hnex, iff_of_true rfl hnex⟩

/-- Claim C9: `process` called with a value that is not a `Context` raises
the assertion failure immediately: the error propagates to the caller
(not caught by the per-plugin handling) and the trace is empty — no
discovery, no plugin construction, no invocation happened. -/
theorem c9_process_type_check :
    ∀ (exe : String) (discover : String → List StagePlugin) (stage tag : String),
      process exe discover stage (PyValue.other tag) =
        (Except.error PublishErr.assertionError, []) := by
  intro exe discover stage tag
  rfl

/-- Claim C10: on a context with zero instances, `process` returns the same
context with a trace holding only the discovery call: `current_host` is
never called, no plugin is constructed or invoked, and nothing is raised —
even under an executable for which host resolution fails (first
conjunct exhibits such an executable). -/
theorem c10_empty_context_no_host :
    current_host exeOther = Except.error PublishErr.hostUndetermined ∧
    ∀ (exe stage : String) (discover : String → List StagePlugin) (c : Context),
      c.instances = [] →
      process exe discover stage (PyValue.ctx c) =
        (Except.ok c, [Event.discovery stage]) := by
  constructor
  · rfl
  · intro exe stage discover c hc
    cases c with
    | mk insts =>
      simp only at hc
      subst hc
      simp [process, processLoop]

/-- Claim C10 witness: empty context, an executable under which host
resolution fails, and a nonempty discovered plugin list. -/
theorem c10_witness :
    (Context.mk []).instances = [] ∧
    process exeOther (fun _ => [P1c]) "validators" (PyValue.ctx (Context.mk [])) =
      (Except.ok (Context.mk []), [Event.discovery "validators"]) :=
  ⟨rfl,
   c10_empty_context_no_host.2 exeOther "validators" (fun _ => [P1c])
     (Context.mk []) rfl⟩

end Publish
